import Mathlib

/-!
Shallow embedding of `sudoku_solver.py` (class `Board`): a Sudoku solver that
combines single-candidate deduction with guess-and-check backed by an explicit
stack of board snapshots.

Modelling conventions:
* The 9x9 board is a function `Fin 9 → Fin 9 → Nat`; the Python code mutates
  `self.board` in place, which we model by threading a `Grid` (or a `BState`
  holding the grid and the guess stack) through each operation.
* Python's `board[i][j]` for arbitrary integer indices (method `get`) is
  modelled by `get`, which reproduces Python list indexing: indices in
  `[0, 8]` read directly, indices in `[-9, -1]` wrap around from the end, and
  anything else raises `IndexError` (modelled as `none`).  All internal call
  sites of `self.get` use loop indices in `range(0, 9)` and are embedded as
  direct applications `g i j` with `i j : Fin 9`; theorem
  `get_characterization` proves the two agree on that range.
* The Python stack list grows at the tail (`append` / `[-1]` / `pop()`); we
  keep the top of the stack at the head of a `List`, which is the same
  abstract stack.
* `peek` / `pop` return the sentinel `-1` on an empty stack; we model the
  sentinel as `none`.  Attribute access on that sentinel
  (`(-1).valid_entries`, `(-1).i_guess`) raises `AttributeError` in Python;
  any raised exception is modelled as `Except.error` with a `PyErr` naming
  the Python exception class.
* `duplicate_board` / `copy_board` are value copies of a board; with
  functional grids they are the identity and are inlined.
-/

namespace Sudoku

/-- The 9x9 grid of digits (`self.board`); cell value 0 means empty. -/
abbrev Grid := Fin 9 → Fin 9 → Nat

/-- Board construction from nine parsed input rows (`__init__`): cell (i, j)
holds the j-th digit of the i-th line.  (Out-of-range `getD` defaults are
never exercised on well-formed 9x9 input.) -/
def mk_board (lines : List (List Nat)) : Grid :=
  fun i j => (lines.getD i.val []).getD j.val 0

/-- Python `get`: `self.board[i][j]` with genuine Python list-index semantics
over a well-formed 9x9 board: in-range and negative-wrap indices succeed,
anything else raises `IndexError` (`none`). -/
def get (g : Grid) (i j : Int) : Option Nat :=
  if h : -9 ≤ i ∧ i < 9 ∧ -9 ≤ j ∧ j < 9 then
    some (g ⟨(i % 9).toNat, by omega⟩ ⟨(j % 9).toNat, by omega⟩)
  else
    none

/-- Python `insert`: `self.board[i][j] = value`. -/
def insert (g : Grid) (i j : Fin 9) (value : Nat) : Grid :=
  fun a b => if a = i ∧ b = j then value else g a b

/-- Python `get_row`: the i-th row as a list, left to right. -/
def get_row (g : Grid) (i : Fin 9) : List Nat :=
  List.ofFn fun j => g i j

/-- Python `get_column`: the j-th column as a list, top to bottom. -/
def get_column (g : Grid) (j : Fin 9) : List Nat :=
  List.ofFn fun i => g i j

/-- Python `get_cell`: the 3x3 block with meta-index `cell_index`, flattened
row by row (rows `(k/3)*3 .. +2`, columns `(k%3)*3 .. +2`). -/
def get_cell (g : Grid) (cell_index : Fin 9) : List Nat :=
  (List.finRange 3).flatMap fun a =>
    (List.finRange 3).map fun b =>
      g ⟨(cell_index.val / 3) * 3 + a.val, by omega⟩
        ⟨(cell_index.val % 3) * 3 + b.val, by omega⟩

/-- Python `is_list_valid`: no non-zero value occurs more than once among the
9 entries (the Python code counts occurrences of each element). -/
def is_list_valid (test_list : List Nat) : Bool :=
  test_list.all fun x => decide (x = 0 ∨ test_list.count x ≤ 1)

/-- Python `is_row_valid`. -/
def is_row_valid (g : Grid) (row_index : Fin 9) : Bool :=
  is_list_valid (get_row g row_index)

/-- Python `is_column_valid`. -/
def is_column_valid (g : Grid) (column_index : Fin 9) : Bool :=
  is_list_valid (get_column g column_index)

/-- Python `is_cell_valid`. -/
def is_cell_valid (g : Grid) (cell_index : Fin 9) : Bool :=
  is_list_valid (get_cell g cell_index)

/-- Python `is_board_valid`: all 9 rows, columns and blocks are free of
duplicate non-zero digits. -/
def is_board_valid (g : Grid) : Bool :=
  (List.finRange 9).all fun i =>
    is_row_valid g i && is_column_valid g i && is_cell_valid g i

/-- All 81 cell coordinates in row-major order: the iteration order of the
Python nested loops `for i in range(0, 9): for j in range(0, 9)`. -/
def cells : List (Fin 9 × Fin 9) :=
  (List.finRange 9).flatMap fun i => (List.finRange 9).map fun j => (i, j)

/-- Python `is_solved`: every cell non-zero, and the board has no duplicate
digit in any row, column or block. -/
def is_solved (g : Grid) : Bool :=
  (cells.all fun c => decide (g c.1 c.2 ≠ 0)) && is_board_valid g

/-- Python `get_meta_cell_index`: block index of cell (i, j). -/
def get_meta_cell_index (i j : Fin 9) : Fin 9 :=
  ⟨(i.val / 3) * 3 + j.val / 3, by omega⟩

/-- Python `get_valid_entries`: for a filled cell, the one-element list with
its digit; for an empty cell, the digits 1..9 with those occurring in the
cell's row, column or block removed (the removal loop over `range(1, 10)`
keeps exactly the digits passing the filter, in ascending order). -/
def get_valid_entries (g : Grid) (i j : Fin 9) : List Nat :=
  if g i j ≠ 0 then
    [g i j]
  else
    ((List.range 9).map (· + 1)).filter fun d =>
      decide (¬ (d ∈ get_row g i ∨ d ∈ get_column g j ∨
                 d ∈ get_cell g (get_meta_cell_index i j)))

/-- Python `make_deductive_decision`: returns the code (-2 already filled,
0 more than one option, -1 no options, the digit itself if it was placed)
together with the possibly-updated board. -/
def make_deductive_decision (g : Grid) (i j : Fin 9) : Int × Grid :=
  if g i j ≠ 0 then
    (-2, g)
  else
    let potential_entries := get_valid_entries g i j
    if potential_entries.length > 1 then
      (0, g)
    else if potential_entries.length = 0 then
      (-1, g)
    else
      ((potential_entries.headD 0 : Int), insert g i j (potential_entries.headD 0))

/-- Inner loop of Python `make_deductive_pass` over the remaining cells,
carrying the `num_entries` counter. -/
def passAux : List (Fin 9 × Fin 9) → Int → Grid → Int × Grid
  | [], num_entries, g => (num_entries, g)
  | c :: rest, num_entries, g =>
    let r := make_deductive_decision g c.1 c.2
    if r.1 > 0 then passAux rest (num_entries + 1) r.2
    else if r.1 = -1 then (-1, r.2)
    else passAux rest num_entries r.2

/-- Python `make_deductive_pass`: scan all 81 cells row-major; abort with -1
on a contradiction, otherwise count the digits placed. -/
def make_deductive_pass (g : Grid) : Int × Grid :=
  passAux cells 0 g

/-- Python exception classes that the code can raise. -/
inductive PyErr where
  | attributeError
  | indexError
deriving DecidableEq

/-- Python inner class `TempBoard`: one guess frame on the stack. -/
structure TempBoard where
  board : Grid
  i_guess : Fin 9
  j_guess : Fin 9
  valid_entries : List Nat
deriving DecidableEq

/-- The mutable state of a `Board` object: the grid and the guess stack
(top of stack at the head of the list). -/
structure BState where
  board : Grid
  stack : List TempBoard
deriving DecidableEq

/-- Python `peek`: top of the stack, or the sentinel -1 (`none`) when empty. -/
def peek (st : BState) : Option TempBoard :=
  st.stack.head?

/-- Python `is_equal_to_board`: cell-by-cell comparison with another board. -/
def is_equal_to_board (g other_board : Grid) : Bool :=
  cells.all fun c => decide (g c.1 c.2 = other_board c.1 c.2)

/-- Python `push_state_to_stack`: snapshot the current board together with
the guess location and its candidate list; returns -1 (but still pushes)
when the candidate list is empty, +1 otherwise. -/
def push_state_to_stack (st : BState) (i j : Fin 9) : Int × BState :=
  let valid_entries := get_valid_entries st.board i j
  ( if valid_entries.length = 0 then -1 else 1,
    { st with stack := ⟨st.board, i, j, valid_entries⟩ :: st.stack } )

/-- First half of Python `make_guess`: push the current board if the stack is
empty or the top snapshot differs from the current board. -/
def guess_stack (st : BState) (i j : Fin 9) : BState :=
  match peek st with
  | none => (push_state_to_stack st i j).2
  | some f =>
    if is_equal_to_board st.board f.board then st
    else (push_state_to_stack st i j).2

/-- Python `make_guess`: consult the top frame's candidate list; return -1
without touching the board if it is empty, otherwise write its first
candidate at (i, j).  The Python success path falls through returning `None`
(modelled as `none`); the `Except` layer records that attribute access on an
empty-stack `peek` would raise (that branch is unreachable here because a
frame was just pushed whenever the stack was empty). -/
def make_guess (st : BState) (i j : Fin 9) : Except PyErr (Option Int × BState) :=
  let st1 := guess_stack st i j
  match peek st1 with
  | none => .error .attributeError
  | some f =>
    match f.valid_entries with
    | [] => .ok (some (-1), st1)
    | guess :: _ => .ok (none, { st1 with board := insert st1.board i j guess })

/-- The `while` loop of Python `roll_back`, with the top frame held apart
from the rest of the stack: while the top frame's candidate list is empty,
pop it, delete the first candidate of the frame below (raising `IndexError`
if that list is empty, or `AttributeError` via `peek` if no frame is left),
and restore the board from the new top.  On exit the board is restored from
the top frame's snapshot. -/
def rollBackLoop : TempBoard → List TempBoard → Except PyErr (Grid × List TempBoard)
  | f, rest =>
    if f.valid_entries.isEmpty then
      match rest with
      | [] => .error .attributeError
      | fr :: rest' =>
        match fr.valid_entries with
        | [] => .error .indexError
        | _ :: ve' => rollBackLoop { fr with valid_entries := ve' } rest'
    else
      .ok (f.board, f :: rest)

/-- Python `roll_back`: delete the first candidate of the top frame (the
guess that failed), unwind exhausted frames, and restore the board from the
surviving top snapshot.  `del self.peek().valid_entries[0]` raises
`AttributeError` when the stack is empty (peek's sentinel -1 has no
attributes) and `IndexError` when the top candidate list is already empty. -/
def roll_back (st : BState) : Except PyErr BState :=
  match peek st with
  | none => .error .attributeError
  | some f =>
    match f.valid_entries with
    | [] => .error .indexError
    | _ :: ve' =>
      match rollBackLoop { f with valid_entries := ve' } st.stack.tail with
      | .error e => .error e
      | .ok (b, s) => .ok { board := b, stack := s }

/-- Python `find_open_spot`: first empty cell in row-major order, or the
sentinel (-1, -1) (`none`) when the board is full. -/
def find_open_spot (g : Grid) : Option (Fin 9 × Fin 9) :=
  cells.find? fun c => decide (g c.1 c.2 = 0)

/-- One iteration of the body of the `while` loop in Python `solve`:
a deductive pass, then depending on its result either nothing further
(`continue`), a roll-back followed by a guess at the restored frame's
coordinates, or a guess at the first open spot (with `continue` when the
board is full).  `make_guess`'s return value is discarded, as in the
source. -/
def solveStep (st : BState) : Except PyErr BState :=
  let r := make_deductive_pass st.board
  let st' : BState := { st with board := r.2 }
  if r.1 > 0 then
    .ok st'
  else if r.1 = -1 then
    match roll_back st' with
    | .error e => .error e
    | .ok st2 =>
      match peek st2 with
      | none => .error .attributeError
      | some f =>
        match make_guess st2 f.i_guess f.j_guess with
        | .error e => .error e
        | .ok (_, st3) => .ok st3
  else
    match find_open_spot st'.board with
    | none => .ok st'
    | some (i_guess, j_guess) =>
      match make_guess st' i_guess j_guess with
      | .error e => .error e
      | .ok (_, st3) => .ok st3

/-- The `while num_steps < 10000 and not self.is_solved()` loop of `solve`,
with `fuel = 10000 - num_steps`; returns the final state together with the
number of loop iterations executed.  When the fuel is exhausted the loop
exits normally without re-checking `is_solved` (the `and` short-circuits). -/
def solveLoop : Nat → BState → Except PyErr (BState × Nat)
  | 0, st => .ok (st, 0)
  | n + 1, st =>
    if is_solved st.board then
      .ok (st, 0)
    else
      match solveStep st with
      | .error e => .error e
      | .ok st' =>
        match solveLoop n st' with
        | .error e => .error e
        | .ok (stf, k) => .ok (stf, k + 1)

/-- Python `solve`: run the main loop with the 10,000-iteration cap. -/
def solve (st : BState) : Except PyErr (BState × Nat) :=
  solveLoop 10000 st

/-!
Definitions following the specification's wording (section 4.2,
DeductionEngine), used to state the refinement between the spec's
`deductivePass` description and the code's `make_deductive_pass`.
-/

/-- Decision outcomes of the spec's `deduceOne`. -/
inductive Decision where
  | alreadyFilled
  | contradiction
  | ambiguous
  | placed (d : Nat)
deriving DecidableEq

/-- The spec's `deduceOne`, following its words: `AlreadyFilled` for a filled
cell; otherwise `Contradiction` on zero candidates, `Ambiguous` (no write) on
more than one, and `Placed d` (writing `d` into the grid) on exactly one. -/
def deduceOne (g : Grid) (i j : Fin 9) : Decision × Grid :=
  if g i j ≠ 0 then
    (.alreadyFilled, g)
  else
    match get_valid_entries g i j with
    | [] => (.contradiction, g)
    | [d] => (.placed d, insert g i j d)
    | _ :: _ :: _ => (.ambiguous, g)

/-- The spec's `deductivePass`, following its words: scan the cells in
row-major order invoking `deduceOne`; return `Contradiction` immediately if
any cell yields one (keeping the writes made earlier in the pass, carried in
the error value); otherwise return the count of cells placed. -/
def deductivePassSpecAux : List (Fin 9 × Fin 9) → Grid → Except Grid (Nat × Grid)
  | [], g => .ok (0, g)
  | c :: rest, g =>
    match deduceOne g c.1 c.2 with
    | (.contradiction, g') => .error g'
    | (.placed _, g') =>
      match deductivePassSpecAux rest g' with
      | .error gf => .error gf
      | .ok (n, gf) => .ok (n + 1, gf)
    | (.alreadyFilled, g') => deductivePassSpecAux rest g'
    | (.ambiguous, g') => deductivePassSpecAux rest g'

/-- The spec's `deductivePass` over the whole board. -/
def deductivePassSpec (g : Grid) : Except Grid (Nat × Grid) :=
  deductivePassSpecAux cells g

/-- Decidable equality of results, used to evaluate the embedding on
concrete inputs. -/
instance {ε α : Type} [DecidableEq ε] [DecidableEq α] : DecidableEq (Except ε α) := fun x y =>
  match x, y with
  | .ok a, .ok b =>
    if h : a = b then .isTrue (by rw [h]) else .isFalse (fun hc => h (Except.ok.inj hc))
  | .error e, .error f =>
    if h : e = f then .isTrue (by rw [h]) else .isFalse (fun hc => h (Except.error.inj hc))
  | .ok _, .error _ => .isFalse (fun hc => Except.noConfusion hc)
  | .error _, .ok _ => .isFalse (fun hc => Except.noConfusion hc)

/-!
Invariant used to prove that solving never overwrites the digits given in
the input puzzle.
-/

/-- Board `g` agrees with the input board on every originally non-zero
cell. -/
def extends_input (inp g : Grid) : Prop :=
  ∀ i j, inp i j ≠ 0 → g i j = inp i j

/-- A well-formed guess frame: its snapshot extends the input and its guess
cell is empty in the snapshot. -/
def FrameOK (inp : Grid) (f : TempBoard) : Prop :=
  extends_input inp f.board ∧ f.board f.i_guess f.j_guess = 0

/-- Solver-state invariant: the current board and every stacked snapshot
extend the input board. -/
def Inv (inp : Grid) (st : BState) : Prop :=
  extends_input inp st.board ∧ ∀ f ∈ st.stack, FrameOK inp f

/-!
Concrete boards used as witnesses and counterexamples.
-/

/-- A fully solved, valid Sudoku grid. -/
def solvedGrid : Grid := mk_board
  [[1, 2, 3, 4, 5, 6, 7, 8, 9],
   [4, 5, 6, 7, 8, 9, 1, 2, 3],
   [7, 8, 9, 1, 2, 3, 4, 5, 6],
   [2, 3, 4, 5, 6, 7, 8, 9, 1],
   [5, 6, 7, 8, 9, 1, 2, 3, 4],
   [8, 9, 1, 2, 3, 4, 5, 6, 7],
   [3, 4, 5, 6, 7, 8, 9, 1, 2],
   [6, 7, 8, 9, 1, 2, 3, 4, 5],
   [9, 1, 2, 3, 4, 5, 6, 7, 8]]

/-- A grid whose cell (0, 0) is empty yet has exactly one candidate (digit 1):
row 0 holds 2..9 and every other cell is empty. -/
def oneCandidateGrid : Grid := mk_board
  [[0, 2, 3, 4, 5, 6, 7, 8, 9]]

/-- A grid whose cell (0, 0) is empty and has no candidate at all: row 0
holds 2..9 and the cell below holds 1, so every digit is excluded. -/
def contradictionGrid : Grid := mk_board
  [[0, 2, 3, 4, 5, 6, 7, 8, 9],
   [1]]

/-- A completely filled board that violates every region constraint. -/
def allFivesGrid : Grid := fun _ _ => 5

/-- A guess frame holding a single untried candidate, used to exercise the
roll-back paths. -/
def singleCandidateFrame : TempBoard :=
  ⟨solvedGrid, 0, 0, [5]⟩

/-- A state whose stack holds exactly one frame with one remaining candidate:
rolling back discards it, the unwinding pops the frame, and the stack
becomes empty. -/
def exhaustedState : BState :=
  { board := allFivesGrid, stack := [singleCandidateFrame] }

/-- A frame with two untried candidates, used to exercise the normal
roll-back path. -/
def twoCandidateFrame : TempBoard :=
  ⟨solvedGrid, 0, 0, [2, 3]⟩

/-- A state from which roll-back succeeds, restoring the snapshot of its
single frame. -/
def rollSourceState : BState :=
  { board := allFivesGrid, stack := [twoCandidateFrame] }

/-- The state `roll_back` produces from `rollSourceState`. -/
def rollTargetState : BState :=
  { board := solvedGrid, stack := [⟨solvedGrid, 0, 0, [3]⟩] }

/-- A state whose top frame has an exhausted candidate list while the board
equals its snapshot, as consulted by `make_guess`. -/
def emptyGuessState : BState :=
  { board := solvedGrid, stack := [⟨solvedGrid, 0, 0, []⟩] }

/-!
Helper lemmas.
-/

/-- Every coordinate pair occurs in the row-major cell enumeration. -/
theorem mem_cells (c : Fin 9 × Fin 9) : c ∈ cells := by
  revert c
  decide

/-- Membership in the candidate list of an empty cell: exactly the digits
1..9 not occurring in the cell's row, column or block. -/
theorem mem_get_valid_entries_iff (g : Grid) (i j : Fin 9) (h : g i j = 0) (d : Nat) :
    d ∈ get_valid_entries g i j ↔
      (1 ≤ d ∧ d ≤ 9 ∧ d ∉ get_row g i ∧ d ∉ get_column g j ∧
       d ∉ get_cell g (get_meta_cell_index i j)) := by
  unfold get_valid_entries
  rw [if_neg (by simp [h])]
  simp only [List.mem_filter, List.mem_map, List.mem_range, decide_eq_true_eq]
  constructor
  · rintro ⟨⟨a, ha, rfl⟩, hnot⟩
    push_neg at hnot
    exact ⟨by omega, by omega, hnot.1, hnot.2.1, hnot.2.2⟩
  · rintro ⟨h1, h9, hr, hc, hb⟩
    refine ⟨⟨d - 1, by omega, by omega⟩, ?_⟩
    push_neg
    exact ⟨hr, hc, hb⟩

/-- Candidates of an empty cell are digits in [1, 9]. -/
theorem get_valid_entries_bounds (g : Grid) (i j : Fin 9) (h : g i j = 0) :
    ∀ d ∈ get_valid_entries g i j, 1 ≤ d ∧ d ≤ 9 := by
  intro d hd
  have hm := (mem_get_valid_entries_iff g i j h d).1 hd
  exact ⟨hm.1, hm.2.1⟩

/-- The candidate list is always strictly ascending. -/
theorem get_valid_entries_sorted (g : Grid) (i j : Fin 9) :
    (get_valid_entries g i j).Pairwise (· < ·) := by
  unfold get_valid_entries
  split
  · exact List.pairwise_singleton _ _
  · exact List.Pairwise.filter _ (by decide)

/-- C4, amended: for every board of digits 0..9 and every cell, the
candidate list is strictly ascending with all entries in [1, 9]; for a
filled cell it is exactly the one stored digit (so has length 1); for an
empty cell its members are exactly the digits 1..9 absent from the cell's
row, column and block.  (The original claim's "length 1 iff filled" fails
in the only-if direction: an empty cell can also have exactly one
candidate.) -/
theorem get_valid_entries_characterization (g : Grid) (i j : Fin 9)
    (hrange : ∀ a b, g a b ≤ 9) :
    (get_valid_entries g i j).Pairwise (· < ·) ∧
    (∀ d ∈ get_valid_entries g i j, 1 ≤ d ∧ d ≤ 9) ∧
    (g i j ≠ 0 → get_valid_entries g i j = [g i j]) ∧
    (g i j = 0 → ∀ d, d ∈ get_valid_entries g i j ↔
      (1 ≤ d ∧ d ≤ 9 ∧ d ∉ get_row g i ∧ d ∉ get_column g j ∧
       d ∉ get_cell g (get_meta_cell_index i j))) := by
  refine ⟨get_valid_entries_sorted g i j, ?_, ?_, ?_⟩
  · intro d hd
    by_cases h : g i j = 0
    · exact get_valid_entries_bounds g i j h d hd
    · unfold get_valid_entries at hd
      rw [if_pos (by simpa using h)] at hd
      simp only [List.mem_singleton] at hd
      subst hd
      exact ⟨Nat.one_le_iff_ne_zero.2 h, hrange i j⟩
  · intro h
    unfold get_valid_entries
    rw [if_pos (by simpa using h)]
  · intro h d
    exact mem_get_valid_entries_iff g i j h d

/-- C4 witness: the characterization applied to a concrete board. -/
theorem get_valid_entries_characterization_witness :
    (get_valid_entries oneCandidateGrid 0 0).Pairwise (· < ·) :=
  (get_valid_entries_characterization oneCandidateGrid 0 0 (by decide)).1

/-- C4 counterexample: in `oneCandidateGrid`, cell (0, 0) is empty yet its
candidate list has length 1, refuting "length 1 iff the cell is filled". -/
theorem get_valid_entries_length_one_empty_cell :
    oneCandidateGrid 0 0 = 0 ∧ (get_valid_entries oneCandidateGrid 0 0).length = 1 := by
  decide

/-- C8, amended: `get` returns the current cell value when both indices lie
in [0, 8]; it raises `IndexError` when either index is below -9 or above 8;
but a negative index in [-9, -1] does not fail: Python list indexing wraps
it around to count from the end. -/
theorem get_characterization (g : Grid) :
    (∀ a b : Fin 9, get g (a.val : Int) (b.val : Int) = some (g a b)) ∧
    (∀ i j : Int, (i < -9 ∨ 8 < i ∨ j < -9 ∨ 8 < j) → get g i j = none) ∧
    (∀ i j : Int, -9 ≤ i → i < 0 → get g i j = get g (i + 9) j) ∧
    (∀ i j : Int, -9 ≤ j → j < 0 → get g i j = get g i (j + 9)) := by
  refine ⟨?_, ?_, ?_, ?_⟩
  · intro a b
    have ha : a.val < 9 := a.isLt
    have hb : b.val < 9 := b.isLt
    unfold get
    rw [dif_pos ⟨by omega, by omega, by omega, by omega⟩]
    have h1 : ((a.val : Int) % 9).toNat = a.val := by omega
    have h2 : ((b.val : Int) % 9).toNat = b.val := by omega
    simp only [h1, h2, Fin.eta]
  · intro i j hout
    unfold get
    rw [dif_neg (by omega)]
  · intro i j hi1 hi2
    unfold get
    by_cases hj : -9 ≤ j ∧ j < 9
    · rw [dif_pos ⟨by omega, by omega, hj.1, hj.2⟩,
         dif_pos ⟨by omega, by omega, hj.1, hj.2⟩]
      have h9 : (i + 9) % 9 = i % 9 := by omega
      simp only [h9]
    · rw [dif_neg (by omega), dif_neg (by omega)]
  · intro i j hj1 hj2
    unfold get
    by_cases hi : -9 ≤ i ∧ i < 9
    · rw [dif_pos ⟨hi.1, hi.2, by omega, by omega⟩,
         dif_pos ⟨hi.1, hi.2, by omega, by omega⟩]
      have h9 : (j + 9) % 9 = j % 9 := by omega
      simp only [h9]
    · rw [dif_neg (by omega), dif_neg (by omega)]

/-- C8 witness: the characterization applied to a concrete board: index 10
fails, index -2 reads the same cell as index 7. -/
theorem get_characterization_witness :
    get solvedGrid 10 0 = none ∧ get solvedGrid (-2) 3 = get solvedGrid 7 3 := by
  refine ⟨(get_characterization solvedGrid).2.1 10 0 (by omega), ?_⟩
  have h := (get_characterization solvedGrid).2.2.1 (-2) 3 (by omega) (by omega)
  norm_num at h
  exact h

/-- C8 counterexample: `get` with row index -1 (outside [0, 8]) does not
fail; it wraps to the last row and returns its first entry. -/
theorem get_negative_index_wraps : get solvedGrid (-1) 0 = some 9 := by decide

/-- The inner pass loop agrees with the spec's scan: a contradiction aborts
with -1 keeping the writes made so far, otherwise the counter accumulates
the number of placed digits. -/
theorem passAux_spec (l : List (Fin 9 × Fin 9)) :
    ∀ (n : Int) (g : Grid),
      passAux l n g =
        match deductivePassSpecAux l g with
        | .error g' => (-1, g')
        | .ok (m, g') => (n + (m : Int), g') := by
  induction l with
  | nil =>
    intro n g
    simp [passAux, deductivePassSpecAux]
  | cons c rest ih =>
    intro n g
    by_cases hf : g c.1 c.2 = 0
    · rcases hl : get_valid_entries g c.1 c.2 with _ | ⟨d, _ | ⟨d', tail⟩⟩
      · simp [passAux, deductivePassSpecAux, make_deductive_decision, deduceOne, hf, hl]
      · have hd : 1 ≤ d := by
          have hm := get_valid_entries_bounds g c.1 c.2 hf d
            (by rw [hl]; exact List.mem_singleton_self d)
          omega
        have hd' : (0 : Int) < (d : Int) := by exact_mod_cast hd
        simp only [passAux, deductivePassSpecAux, make_deductive_decision, deduceOne,
          hf, hl, if_neg (by simp [hf] : ¬ g c.1 c.2 ≠ 0)]
        norm_num [hd']
        rw [ih (n + 1) (insert g c.1 c.2 d)]
        cases hs : deductivePassSpecAux rest (insert g c.1 c.2 d) with
        | error gf => simp
        | ok p =>
          obtain ⟨m, gf⟩ := p
          simp only
          refine Prod.ext ?_ rfl
          push_cast
          ring
      · simp [passAux, deductivePassSpecAux, make_deductive_decision, deduceOne, hf, hl,
          ih n g]
    · simp [passAux, deductivePassSpecAux, make_deductive_decision, deduceOne, hf, ih n g]

/-- C6: `make_deductive_pass` implements the spec's `deductivePass`: it
scans all 81 cells in row-major order applying the per-cell deduction;
an empty cell with zero candidates makes it return the contradiction signal
-1 immediately with the digits placed earlier in the pass still on the
board, and otherwise it returns the count of digits placed (0 meaning the
propagation has stalled). -/
theorem make_deductive_pass_refines_spec (g : Grid) :
    make_deductive_pass g =
      match deductivePassSpec g with
      | .error g' => (-1, g')
      | .ok (m, g') => ((m : Int), g') := by
  have h := passAux_spec cells 0 g
  unfold make_deductive_pass deductivePassSpec
  rw [h]
  cases deductivePassSpecAux cells g with
  | error gf => rfl
  | ok p => simp

/-- Pushing a guess frame never changes the board. -/
theorem guess_stack_board (st : BState) (i j : Fin 9) :
    (guess_stack st i j).board = st.board := by
  unfold guess_stack push_state_to_stack
  cases peek st with
  | none => rfl
  | some f =>
    by_cases h : is_equal_to_board st.board f.board <;> simp [h]

/-- C10: whenever the candidate list of the top frame consulted by
`make_guess` is empty, `make_guess` returns the failure signal -1 and the
board is left unchanged: no digit is written on that path (the stack may
have gained a frame, but every cell of the grid is as before). -/
theorem make_guess_empty_candidates_atomic (st : BState) (i j : Fin 9) (f : TempBoard)
    (hf : peek (guess_stack st i j) = some f)
    (he : f.valid_entries = []) :
    make_guess st i j = .ok (some (-1), guess_stack st i j) ∧
    (guess_stack st i j).board = st.board := by
  refine ⟨?_, guess_stack_board st i j⟩
  unfold make_guess
  simp only [hf]
  rw [he]

/-- C10 witness: a concrete state whose top frame is exhausted. -/
theorem make_guess_empty_candidates_atomic_witness :
    make_guess emptyGuessState 0 0 = .ok (some (-1), guess_stack emptyGuessState 0 0) ∧
    (guess_stack emptyGuessState 0 0).board = emptyGuessState.board :=
  make_guess_empty_candidates_atomic emptyGuessState 0 0 ⟨solvedGrid, 0, 0, []⟩
    (by decide) rfl

/-- The unwinding loop of roll_back only ever restores the snapshot of a
frame it was given: the returned board belongs to the separated top frame
or to one of the frames below it. -/
theorem rollBackLoop_mem (rest : List TempBoard) :
    ∀ (f : TempBoard) (b : Grid) (s : List TempBoard),
      rollBackLoop f rest = .ok (b, s) → b = f.board ∨ ∃ fr ∈ rest, b = fr.board := by
  induction rest with
  | nil =>
    intro f b s h
    unfold rollBackLoop at h
    by_cases he : f.valid_entries.isEmpty
    · simp [he] at h
    · simp [he] at h
      exact Or.inl h.1.symm
  | cons g1 rest' ih =>
    intro f b s h
    unfold rollBackLoop at h
    by_cases he : f.valid_entries.isEmpty
    · simp only [he, if_true] at h
      cases hv : g1.valid_entries with
      | nil => rw [hv] at h; simp at h
      | cons x ve' =>
        rw [hv] at h
        rcases ih { g1 with valid_entries := ve' } b s h with h1 | ⟨fr, hfr, hb⟩
        · exact Or.inr ⟨g1, List.mem_cons_self _ _, by simpa using h1⟩
        · exact Or.inr ⟨fr, List.mem_cons_of_mem _ hfr, hb⟩
    · simp [he] at h
      exact Or.inl h.1.symm

/-- C7: after every call to roll_back that returns normally, the resulting
board is exactly the snapshot stored in some frame that was on the search
stack when roll_back was entered; roll_back never produces a board that was
not earlier saved as a snapshot. -/
theorem roll_back_restores_prior_snapshot (st st' : BState)
    (h : roll_back st = .ok st') :
    ∃ f ∈ st.stack, st'.board = f.board := by
  unfold roll_back at h
  split at h
  next => exact absurd h (by simp)
  next f hp =>
    split at h
    next => exact absurd h (by simp)
    next x ve' hv =>
      split at h
      next e hr => exact absurd h (by simp)
      next b s hr =>
        have hst' : st' = { board := b, stack := s } := by
          cases h
          rfl
        have hfm : f ∈ st.stack := List.mem_of_mem_head? (by rw [← peek, hp]; rfl)
        rcases rollBackLoop_mem st.stack.tail _ b s hr with h1 | ⟨fr, hfr, hb⟩
        · exact ⟨f, hfm, by rw [hst']; simpa using h1⟩
        · exact ⟨fr, List.mem_of_mem_tail hfr, by rw [hst']; exact hb⟩

/-- C7 witness: rolling back `rollSourceState` restores the snapshot of the
frame that was pushed on its stack. -/
theorem roll_back_restores_prior_snapshot_witness :
    rollTargetState.board = twoCandidateFrame.board := by
  obtain ⟨f, hf, hb⟩ :=
    roll_back_restores_prior_snapshot rollSourceState rollTargetState (by decide)
  have hfe : f = twoCandidateFrame := by
    have hm : f ∈ [twoCandidateFrame] := hf
    simpa using hm
  rw [hfe] at hb
  exact hb

/-- C2: the code does not surface an `Unsolvable` result; it crashes.  When
every frame's candidates are exhausted, the unwinding loop pops the last
frame and dereferences `peek().valid_entries` on the empty stack, where
`peek` returns the sentinel -1: Python raises `AttributeError`.  The same
exception escapes `solve` when a contradiction is found with an empty stack,
so the caller sees an exception, not a "could not solve" outcome. -/
theorem roll_back_exhausted_stack_raises :
    roll_back exhaustedState = .error .attributeError ∧
    solve { board := contradictionGrid, stack := [] } = .error .attributeError := by
  exact ⟨by decide, by decide⟩

/-- C9: calling solve on an already-solved board returns immediately with
the Solved outcome: zero loop iterations, hence zero deductive passes and
zero guesses, and the board and the search stack are both unchanged. -/
theorem solve_idempotent_on_solved (st : BState) (h : is_solved st.board = true) :
    solve st = .ok (st, 0) := by
  unfold solve
  rw [show (10000 : Nat) = 9999 + 1 from rfl]
  unfold solveLoop
  rw [if_pos h]

/-- C9 witness: solve on a concrete solved board. -/
theorem solve_idempotent_on_solved_witness :
    solve { board := solvedGrid, stack := [] } =
      .ok ({ board := solvedGrid, stack := [] }, 0) :=
  solve_idempotent_on_solved { board := solvedGrid, stack := [] } (by decide)

/-- A deductive pass over a fully filled board places nothing and leaves
the board unchanged: every cell reports "already filled". -/
theorem passAux_full (l : List (Fin 9 × Fin 9)) (g : Grid)
    (hfull : ∀ c : Fin 9 × Fin 9, g c.1 c.2 ≠ 0) :
    ∀ n, passAux l n g = (n, g) := by
  induction l with
  | nil => intro n; rfl
  | cons c rest ih =>
    intro n
    have hd : make_deductive_decision g c.1 c.2 = (-2, g) := by
      unfold make_deductive_decision
      rw [if_pos (hfull c)]
    simp only [passAux, hd]
    norm_num
    exact ih n

/-- On a fully filled board one whole loop iteration is a no-op: the pass
returns 0, no open spot exists, and the body falls through (`continue`). -/
theorem solveStep_full (st : BState)
    (hfull : find_open_spot st.board = none) :
    solveStep st = .ok st := by
  have hcells : ∀ c : Fin 9 × Fin 9, st.board c.1 c.2 ≠ 0 := by
    intro c
    have hc := List.find?_eq_none.1 hfull c (mem_cells c)
    simpa using hc
  have hpass : make_deductive_pass st.board = (0, st.board) :=
    passAux_full cells st.board hcells 0
  simp only [solveStep, hpass]
  norm_num
  rw [hfull]

/-- On a fully filled but rule-violating board the loop spins without
modifying the state until its fuel is exhausted. -/
theorem solveLoop_full_invalid (g : Grid)
    (hfull : find_open_spot g = none)
    (hinv : is_board_valid g = false) :
    ∀ (n : Nat) (st : BState), st.board = g → solveLoop n st = .ok (st, n) := by
  intro n
  induction n with
  | zero => intro st hb; rfl
  | succ n ih =>
    intro st hb
    have hsol : is_solved st.board = false := by
      rw [hb]
      unfold is_solved
      rw [hinv]
      simp
    have hstep : solveStep st = .ok st := solveStep_full st (by rw [hb]; exact hfull)
    simp only [solveLoop, hsol]
    norm_num
    simp only [hstep, ih st hb]

/-- C5: on a fully filled board that violates region uniqueness, is_solved
is false and solve terminates (after its 10,000 capped no-op iterations)
with the Failed outcome, the board and stack unchanged cell for cell. -/
theorem solve_full_invalid_unchanged (g : Grid)
    (hfull : find_open_spot g = none)
    (hinv : is_board_valid g = false) :
    is_solved g = false ∧
    solve { board := g, stack := [] } = .ok ({ board := g, stack := [] }, 10000) := by
  constructor
  · unfold is_solved
    rw [hinv]
    simp
  · exact solveLoop_full_invalid g hfull hinv 10000 { board := g, stack := [] } rfl

/-- C5 witness: a concrete full, invalid board. -/
theorem solve_full_invalid_unchanged_witness :
    find_open_spot allFivesGrid = none ∧ is_board_valid allFivesGrid = false ∧
    solve { board := allFivesGrid, stack := [] } =
      .ok ({ board := allFivesGrid, stack := [] }, 10000) :=
  ⟨by decide, by decide,
   (solve_full_invalid_unchanged allFivesGrid (by decide) (by decide)).2⟩

/-- The loop never executes more iterations than its fuel allows. -/
theorem solveLoop_le_fuel : ∀ (n : Nat) (st st' : BState) (k : Nat),
    solveLoop n st = .ok (st', k) → k ≤ n := by
  intro n
  induction n with
  | zero =>
    intro st st' k h
    cases h
    omega
  | succ n ih =>
    intro st st' k h
    unfold solveLoop at h
    split at h
    next =>
      cases h
      omega
    next =>
      split at h
      next => cases h
      next st1 hstep =>
        split at h
        next => cases h
        next stf k2 hrec =>
          cases h
          have hk := ih _ _ _ hrec
          omega

/-- C3: solve terminates on every input state (it is a total function whose
main loop performs at most 10,000 iterations), and exhausting the iteration
cap exits the loop normally with the current state - a not-solved result
reported as Failed by the caller - never an exception raised by the cap
itself. -/
theorem solve_iteration_bound :
    (∀ st st' k, solve st = .ok (st', k) → k ≤ 10000) ∧
    (∀ st : BState, solveLoop 0 st = .ok (st, 0)) :=
  ⟨fun st st' k h => solveLoop_le_fuel 10000 st st' k h, fun _ => rfl⟩

/-- C3 witness: the bound and the cap exit evaluated at a concrete state. -/
theorem solve_iteration_bound_witness :
    0 ≤ 10000 ∧ solveLoop 0 { board := solvedGrid, stack := [] } =
      .ok ({ board := solvedGrid, stack := [] }, 0) :=
  ⟨solve_iteration_bound.1 { board := solvedGrid, stack := [] }
     { board := solvedGrid, stack := [] } 0 (by decide),
   solve_iteration_bound.2 { board := solvedGrid, stack := [] }⟩

/-- Writing into a currently empty cell preserves agreement with the
input: the target cell cannot carry an input digit. -/
theorem extends_input_insert (inp g : Grid) (i j : Fin 9) (v : Nat)
    (h0 : g i j = 0) (hx : extends_input inp g) :
    extends_input inp (insert g i j v) := by
  intro a b hab
  unfold insert
  split
  next hc =>
    obtain ⟨rfl, rfl⟩ := hc
    have h1 := hx a b hab
    omega
  next => exact hx a b hab

/-- A deductive decision writes only into an empty cell. -/
theorem extends_input_mdd (inp g : Grid) (i j : Fin 9)
    (hx : extends_input inp g) :
    extends_input inp (make_deductive_decision g i j).2 := by
  simp only [make_deductive_decision]
  split
  next => exact hx
  next h0 =>
    have h0' : g i j = 0 := by
      by_contra hc
      exact h0 hc
    split
    next => exact hx
    next =>
      split
      next => exact hx
      next => exact extends_input_insert inp g i j _ h0' hx

/-- A whole deductive pass preserves the input digits. -/
theorem extends_input_passAux (inp : Grid) (l : List (Fin 9 × Fin 9)) :
    ∀ (n : Int) (g : Grid), extends_input inp g → extends_input inp (passAux l n g).2 := by
  induction l with
  | nil => intro n g hx; exact hx
  | cons c rest ih =>
    intro n g hx
    simp only [passAux]
    split
    next => exact ih _ _ (extends_input_mdd inp g c.1 c.2 hx)
    next =>
      split
      next => exact extends_input_mdd inp g c.1 c.2 hx
      next => exact ih _ _ (extends_input_mdd inp g c.1 c.2 hx)

/-- `make_deductive_pass` preserves the input digits. -/
theorem extends_input_pass (inp g : Grid) (hx : extends_input inp g) :
    extends_input inp (make_deductive_pass g).2 :=
  extends_input_passAux inp cells 0 g hx

/-- The stack produced by the guess push is never empty. -/
theorem guess_stack_ne_nil (st : BState) (i j : Fin 9) :
    (guess_stack st i j).stack ≠ [] := by
  obtain ⟨board, stack⟩ := st
  cases stack with
  | nil => simp [guess_stack, peek, push_state_to_stack]
  | cons f rest =>
    simp only [guess_stack, peek, List.head?_cons]
    split
    · simp
    · simp [push_state_to_stack]

/-- The guess push preserves the solver invariant: a newly pushed frame
snapshots the current (invariant-satisfying) board at an empty cell. -/
theorem guess_stack_inv (inp : Grid) (st : BState) (i j : Fin 9)
    (hinv : Inv inp st) (h0 : st.board i j = 0) :
    Inv inp (guess_stack st i j) := by
  obtain ⟨board, stack⟩ := st
  have hpushed : Inv inp
      { board := board,
        stack := (⟨board, i, j, get_valid_entries board i j⟩ : TempBoard) :: stack } := by
    refine ⟨hinv.1, ?_⟩
    intro fr hfr
    rcases List.mem_cons.1 hfr with rfl | hfr2
    · exact ⟨hinv.1, h0⟩
    · exact hinv.2 fr hfr2
  cases stack with
  | nil => exact hpushed
  | cons f rest =>
    by_cases heq : is_equal_to_board board f.board
    · have hgs : guess_stack ⟨board, f :: rest⟩ i j = ⟨board, f :: rest⟩ := by
        simp [guess_stack, peek, heq]
      rw [hgs]
      exact hinv
    · have hgs : guess_stack ⟨board, f :: rest⟩ i j =
          { board := board,
            stack := (⟨board, i, j, get_valid_entries board i j⟩ : TempBoard) :: f :: rest } := by
        simp [guess_stack, peek, push_state_to_stack, heq]
      rw [hgs]
      exact hpushed

/-- `make_guess` at an empty cell succeeds and preserves the invariant. -/
theorem make_guess_inv (inp : Grid) (st : BState) (i j : Fin 9)
    (hinv : Inv inp st) (h0 : st.board i j = 0) :
    ∃ r st', make_guess st i j = .ok (r, st') ∧ Inv inp st' := by
  have hst1_board : (guess_stack st i j).board = st.board := guess_stack_board st i j
  have hst1_inv : Inv inp (guess_stack st i j) := guess_stack_inv inp st i j hinv h0
  rcases hpk : peek (guess_stack st i j) with _ | top
  · exact absurd (List.head?_eq_none_iff.1 hpk) (guess_stack_ne_nil st i j)
  · rcases hve : top.valid_entries with _ | ⟨d, tl⟩
    · refine ⟨some (-1), guess_stack st i j, ?_, hst1_inv⟩
      unfold make_guess
      simp only [hpk]
      rw [hve]
    · refine ⟨none,
        { guess_stack st i j with board := insert (guess_stack st i j).board i j d },
        ?_, ?_, ?_⟩
      · unfold make_guess
        simp only [hpk]
        rw [hve]
      · have hz : (guess_stack st i j).board i j = 0 := by
          rw [hst1_board]
          exact h0
        exact extends_input_insert inp _ i j d hz hst1_inv.1
      · exact hst1_inv.2

/-- The unwinding loop of roll_back preserves well-formed frames and ends
with a non-empty stack whose top snapshot is the restored board. -/
theorem rollBackLoop_frames (inp : Grid) (rest : List TempBoard) :
    ∀ (f : TempBoard) (b : Grid) (s : List TempBoard),
      FrameOK inp f → (∀ fr ∈ rest, FrameOK inp fr) →
      rollBackLoop f rest = .ok (b, s) →
      ∃ ftop srest, s = ftop :: srest ∧ b = ftop.board ∧ FrameOK inp ftop ∧
        ∀ fr ∈ s, FrameOK inp fr := by
  induction rest with
  | nil =>
    intro f b s hf hrest h
    unfold rollBackLoop at h
    split at h
    next => exact absurd h (by simp)
    next =>
      cases h
      exact ⟨f, [], rfl, rfl, hf, by simpa using hf⟩
  | cons g1 rest' ih =>
    intro f b s hf hrest h
    unfold rollBackLoop at h
    split at h
    next hemp =>
      split at h
      next heq => exact absurd h (by simp)
      next fr1 rest2 heq =>
        obtain ⟨rfl, rfl⟩ : g1 = fr1 ∧ rest' = rest2 := by
          injection heq with h1 h2
          exact ⟨h1, h2⟩
        split at h
        next => exact absurd h (by simp)
        next x ve' hv =>
          have hg1 : FrameOK inp { g1 with valid_entries := ve' } :=
            hrest g1 (List.mem_cons_self _ _)
          exact ih _ b s hg1 (fun fr hfr => hrest fr (List.mem_cons_of_mem _ hfr)) h
    next hne =>
      cases h
      refine ⟨f, g1 :: rest', rfl, rfl, hf, ?_⟩
      intro fr hfr
      rcases List.mem_cons.1 hfr with rfl | hfr2
      · exact hf
      · exact hrest fr hfr2

/-- `roll_back`, when it returns normally, preserves the invariant and
leaves a non-empty stack whose top frame's snapshot is the restored board,
with that frame's guess cell empty. -/
theorem roll_back_inv (inp : Grid) (st st' : BState)
    (hinv : Inv inp st) (h : roll_back st = .ok st') :
    Inv inp st' ∧ ∃ f rest, st'.stack = f :: rest ∧ st'.board = f.board ∧
      st'.board f.i_guess f.j_guess = 0 := by
  unfold roll_back at h
  split at h
  next => exact absurd h (by simp)
  next f hp =>
    split at h
    next => exact absurd h (by simp)
    next x ve' hv =>
      split at h
      next => exact absurd h (by simp)
      next b s hr =>
        have hst' : st' = { board := b, stack := s } := by
          cases h
          rfl
        have hfm : f ∈ st.stack := List.mem_of_mem_head? (by rw [← peek, hp]; rfl)
        have hfOK : FrameOK inp f := hinv.2 f hfm
        have hfOK' : FrameOK inp { f with valid_entries := ve' } := hfOK
        have htail : ∀ fr ∈ st.stack.tail, FrameOK inp fr := fun fr hfr =>
          hinv.2 fr (List.mem_of_mem_tail hfr)
        obtain ⟨ftop, srest, hs, hb, hftop, hall⟩ :=
          rollBackLoop_frames inp st.stack.tail _ b s hfOK' htail hr
        subst hst'
        refine ⟨⟨?_, ?_⟩, ftop, srest, by simpa using hs, by simpa using hb, ?_⟩
        · have hbx : b = ftop.board := hb
          rw [hbx]
          exact hftop.1
        · intro fr hfr
          exact hall fr (by simpa [hs] using hfr)
        · show b ftop.i_guess ftop.j_guess = 0
          rw [hb]
          exact hftop.2

/-- One iteration of the solve loop preserves the invariant. -/
theorem solveStep_inv (inp : Grid) (st st' : BState)
    (hinv : Inv inp st) (h : solveStep st = .ok st') :
    Inv inp st' := by
  have hinv1 : Inv inp { st with board := (make_deductive_pass st.board).2 } :=
    ⟨extends_input_pass inp st.board hinv.1, hinv.2⟩
  simp only [solveStep] at h
  split at h
  next =>
    cases h
    exact hinv1
  next =>
    split at h
    next =>
      split at h
      next => cases h
      next st2 hr =>
        obtain ⟨hinv2, f0, rest0, hs2, hb2, hcell⟩ := roll_back_inv inp _ st2 hinv1 hr
        split at h
        next => cases h
        next f hp =>
          have hf : f = f0 := by
            rw [peek, hs2] at hp
            simpa using hp.symm
          obtain ⟨r, st3, hmg, hinv3⟩ :=
            make_guess_inv inp st2 f.i_guess f.j_guess hinv2 (by rw [hf]; exact hcell)
          rw [hmg] at h
          cases h
          exact hinv3
    next =>
      split at h
      next =>
        cases h
        exact hinv1
      next i_guess j_guess hfind =>
        have h0 : (make_deductive_pass st.board).2 i_guess j_guess = 0 := by
          have hp := List.find?_some hfind
          simpa using hp
        obtain ⟨r, st3, hmg, hinv3⟩ :=
          make_guess_inv inp { st with board := (make_deductive_pass st.board).2 }
            i_guess j_guess hinv1 h0
        rw [hmg] at h
        cases h
        exact hinv3

/-- The whole loop preserves the invariant. -/
theorem solveLoop_inv (inp : Grid) : ∀ (n : Nat) (st st' : BState) (k : Nat),
    Inv inp st → solveLoop n st = .ok (st', k) → Inv inp st' := by
  intro n
  induction n with
  | zero =>
    intro st st' k hinv h
    cases h
    exact hinv
  | succ n ih =>
    intro st st' k hinv h
    unfold solveLoop at h
    split at h
    next =>
      cases h
      exact hinv
    next =>
      split at h
      next => cases h
      next st1 hstep =>
        split at h
        next => cases h
        next stf k2 hrec =>
          cases h
          exact ih _ _ _ (solveStep_inv inp st st1 hinv hstep) hrec

/-- C1: whenever solve finishes with the board in a solved state, is_solved
holds of the final board and the final board agrees with the input on every
cell that was non-zero in the input: no given digit is ever overwritten by
deduction, guessing, or rollback. -/
theorem solve_preserves_given_digits (inp : Grid) (st' : BState) (k : Nat)
    (h : solve { board := inp, stack := [] } = .ok (st', k))
    (hs : is_solved st'.board = true) :
    is_solved st'.board = true ∧ ∀ i j, inp i j ≠ 0 → st'.board i j = inp i j := by
  have hinv0 : Inv inp { board := inp, stack := [] } := ⟨fun i j _ => rfl, by simp⟩
  have hinv := solveLoop_inv inp 10000 _ st' k hinv0 h
  exact ⟨hs, hinv.1⟩

/-- C1 witness: the preservation theorem applied to a concrete solved
input. -/
theorem solve_preserves_given_digits_witness :
    ({ board := solvedGrid, stack := [] } : BState).board 0 0 = solvedGrid 0 0 :=
  (solve_preserves_given_digits solvedGrid { board := solvedGrid, stack := [] } 0
    (by decide) (by decide)).2 0 0 (by decide)

end Sudoku
